import Mathlib

/-!
# ogdrb — verification of the repeater-to-codeplug pipeline

The repository packages a two-stage pipeline: multi-zone geospatial
repeater retrieval (`ogdrb.services.get_repeaters`) and an organizer
(`ogdrb.organizer.organize`) that turns the consolidated per-zone
repeater sets into a deduplicated, ordered codeplug.  The repository
snapshot carries only the notebook caller of these functions, so the
pipeline itself is modelled here from the specification (sections
4.1–4.6 and 7): every definition marked `Modelled from the spec:`
renders the spec's words for the corresponding missing component.
-/

namespace Ogdrb

/-- Modelled from the spec: a coordinate, latitude/longitude as scaled
integers (decimal degrees are carried by the external client; only
identity of the value matters to the core). -/
structure LatLon where
  lat : Int
  lon : Int
deriving DecidableEq, Repr

/-- Modelled from the spec: supported length units for a search radius. -/
inductive LengthUnit where
  | kilometers
  | miles
deriving DecidableEq, Repr

/-- Modelled from the spec: a circular search area — center coordinate,
radius and unit; used only as a query parameter. -/
structure SearchArea where
  origin : LatLon
  distance : Nat
  unit : LengthUnit
deriving DecidableEq, Repr

/-- Modelled from the spec: the export filter — the set of permitted
countries, shared across all zones of one request. -/
structure ExportFilter where
  countries : List String
deriving DecidableEq, Repr

/-- Modelled from the spec: an operating mode as published by the
directory; only analog FM and DMR have a representation in the target
codeplug format. -/
inductive Mode where
  | fm
  | dmr
  | am
  | ssb
deriving DecidableEq, Repr

/-- Modelled from the spec: whether a mode has a representation in the
target codeplug format. -/
def Mode.supported : Mode → Bool
  | .fm => true
  | .dmr => true
  | _ => false

/-- Modelled from the spec: the offset direction a directory record
declares for its transmit frequency. -/
inductive OffsetDir where
  | plus
  | minus
  | simplex
deriving DecidableEq, Repr

/-- Modelled from the spec: one directory entry — stable directory-assigned
identity, location, frequency data, tone, operating mode and callsign.
Frequencies are in hertz. -/
structure RepeaterRecord where
  id : Nat
  callsign : String
  location : LatLon
  rx : Int
  txExplicit : Option Int
  offsetDir : OffsetDir
  offsetMag : Int
  tone : Option Nat
  mode : Mode
deriving DecidableEq, Repr

/-- Modelled from the spec: mapping from zone name to the ordered
collection of records retrieved for that zone. -/
abbrev RepeatersByZone := List (String × List RepeaterRecord)

/-- Modelled from the spec: a channel entry derived from exactly one
record; the record's directory identity is kept so zones can reference
the channel by identity rather than duplicating channel data. -/
structure ChannelEntry where
  recordId : Nat
  name : String
  rx : Int
  tx : Int
  tone : Option Nat
  mode : Mode
deriving DecidableEq, Repr

/-- Modelled from the spec: an output zone — a name plus the ordered
channel references (by record identity) bounded by the per-zone cap. -/
structure Zone where
  name : String
  channelIds : List Nat
deriving DecidableEq, Repr

instance : Inhabited Zone := ⟨⟨"", []⟩⟩

/-- Modelled from the spec: the top-level output — a global channel table
plus an ordered sequence of zones referencing channels by identity. -/
structure Codeplug where
  channels : List ChannelEntry
  zones : List Zone
deriving DecidableEq, Repr

/-- Modelled from the spec: the error taxonomy of section 7 that is
reported (not fatal): a skipped record with an unrepresentable mode, or
a channel dropped from a zone that would exceed capacity.  Each entry
names the affected zone/record and the reason. -/
inductive ReportEntry where
  | unsupportedMode (recordId : Nat)
  | capacityExceeded (zoneName : String) (recordId : Nat)
deriving DecidableEq, Repr

/-- Modelled from the spec: the per-zone query failures surfaced by the
directory client. -/
inductive QueryError where
  | directoryUnavailable
  | invalidArea
deriving DecidableEq, Repr

/-! ## Deduplicator (spec section 4.3) -/

/-- Modelled from the spec: append an id unless it already appeared;
first appearance determines position. -/
def insertId (acc : List Nat) (i : Nat) : List Nat :=
  if i ∈ acc then acc else acc ++ [i]

/-- Modelled from the spec: the ordered set of record ids of a zone,
first-appearance order. -/
def dedupIds (ids : List Nat) : List Nat :=
  ids.foldl insertId []

/-- Modelled from the spec: append a record unless a record with its
directory identity already appeared; identity equality only, never
geographic proximity. -/
def insertRecord (acc : List RepeaterRecord) (r : RepeaterRecord) : List RepeaterRecord :=
  if r.id ∈ acc.map (fun a => a.id) then acc else acc ++ [r]

/-- Modelled from the spec: all records of a request flattened in zone
iteration order, then in-zone order. -/
def flatRecords (input : RepeatersByZone) : List RepeaterRecord :=
  (input.map (fun z => z.2)).flatten

/-- Modelled from the spec: the global set of records, one per directory
identity, positioned by order of first appearance. -/
def globalRecords (input : RepeatersByZone) : List RepeaterRecord :=
  (flatRecords input).foldl insertRecord []

/-- The spec's words for the global table order, stated independently of
the record-level fold: flatten all record ids in zone iteration order,
then in-zone order, and keep first appearances. -/
def firstAppearanceIds (input : RepeatersByZone) : List Nat :=
  dedupIds ((input.map (fun z => z.2.map (fun r => r.id))).flatten)

/-! ## ChannelBuilder (spec section 4.4) -/

/-- Modelled from the spec: the target format's maximum channel-name
length. -/
def maxNameLen : Nat := 16

/-- Modelled from the spec: characters permitted in a channel or zone
name by the target format. -/
def allowedChar (c : Char) : Bool :=
  c.isAlphanum || c == ' ' || c == '-'

/-- Modelled from the spec: strip disallowed characters and truncate to
the target format's maximum name length. -/
def sanitizeName (s : String) : String :=
  ((s.toList.filter allowedChar).take maxNameLen).asString

/-- Modelled from the spec: transmit frequency — taken from the record
when given explicitly, otherwise computed from the declared offset
direction and magnitude. -/
def txFreq (r : RepeaterRecord) : Int :=
  match r.txExplicit with
  | some t => t
  | none =>
    match r.offsetDir with
    | .plus => r.rx + r.offsetMag
    | .minus => r.rx - r.offsetMag
    | .simplex => r.rx

/-- Modelled from the spec: the deterministic record-to-channel mapping
for a record whose mode is representable; absent tone is the explicit
"no tone" default. -/
def mkChannelEntry (r : RepeaterRecord) : ChannelEntry :=
  { recordId := r.id
    name := sanitizeName r.callsign
    rx := r.rx
    tx := txFreq r
    tone := r.tone
    mode := r.mode }

/-- Modelled from the spec: the channel build error. -/
inductive BuildError where
  | unsupportedMode
deriving DecidableEq, Repr

/-- Modelled from the spec: `build(record) -> ChannelEntry`, failing with
`UnsupportedMode` when the record's operating mode has no representation
in the target codeplug format. -/
def buildChannel (r : RepeaterRecord) : Except BuildError ChannelEntry :=
  if r.mode.supported then .ok (mkChannelEntry r) else .error .unsupportedMode

/-- Modelled from the spec: build a channel for every global record; a
record that fails to build is skipped and reported, not fatal. -/
def buildChannels (records : List RepeaterRecord) : List ChannelEntry × List ReportEntry :=
  (records.filterMap (fun r => (buildChannel r).toOption),
   records.filterMap (fun r =>
     match buildChannel r with
     | .ok _ => none
     | .error .unsupportedMode => some (.unsupportedMode r.id)))

/-! ## ZoneBuilder (spec section 4.5) -/

/-- Modelled from the spec: the target format's maximum channel count per
zone (OpenGD77 zone capacity). -/
def maxZoneChannels : Nat := 80

/-- Modelled from the spec: `build(zone name, ordered record-ids, channel
lookup) -> Zone` — keep the ids that built a channel, truncate in the
established order at the capacity, and report every dropped channel with
the affected zone and record. -/
def buildZone (channels : List ChannelEntry) (name : String) (ids : List Nat) :
    Zone × List ReportEntry :=
  let avail := ids.filter (fun i => i ∈ channels.map (fun c => c.recordId))
  ({ name := sanitizeName name, channelIds := avail.take maxZoneChannels },
   (avail.drop maxZoneChannels).map (fun i => .capacityExceeded name i))

/-! ## CodeplugAssembler (spec section 4.6) -/

/-- Modelled from the spec: `assemble(global channels, zones) -> Codeplug`
— pure structural combination, eliminating global entries that no zone
references. -/
def assemble (channels : List ChannelEntry) (zones : List Zone) : Codeplug :=
  { channels := channels.filter (fun c => zones.any (fun z => c.recordId ∈ z.channelIds))
    zones := zones }

/-! ## Organizer (`ogdrb.organizer.organize`) -/

/-- Modelled from the spec: the organizer — dedup, build channels, build
zones in the caller's zone order, assemble; the structured report is
returned alongside the codeplug. -/
def organize (input : RepeatersByZone) : Codeplug × List ReportEntry :=
  let globals := globalRecords input
  let built := buildChannels globals
  let zonesBuilt := input.map (fun z => buildZone built.1 z.1 (dedupIds (z.2.map (fun r => r.id))))
  (assemble built.1 (zonesBuilt.map (fun zr => zr.1)),
   built.2 ++ (zonesBuilt.map (fun zr => zr.2)).flatten)

/-! ## ZoneAggregator (`ogdrb.services.get_repeaters`, spec section 4.2) -/

/-- Modelled from the spec: `aggregate(zones, filter) -> RepeatersByZone`
— one directory query per zone; the single documented failure policy is
to fail the whole request, naming the first failed zone.  The zone-name
association of the caller's request is preserved in order. -/
def get_repeaters
    (query : ExportFilter → SearchArea → Except QueryError (List RepeaterRecord))
    (flt : ExportFilter) (zones : List (String × SearchArea)) :
    Except (String × QueryError) RepeatersByZone :=
  match zones with
  | [] => .ok []
  | z :: rest =>
    match query flt z.2 with
    | .error e => .error (z.1, e)
    | .ok recs =>
      match get_repeaters query flt rest with
      | .error err => .error err
      | .ok rbz => .ok ((z.1, recs) :: rbz)

/-- Modelled from the spec: the two-stage pipeline as invoked by the
notebook — retrieval followed by the organizer. -/
def pipeline
    (query : ExportFilter → SearchArea → Except QueryError (List RepeaterRecord))
    (flt : ExportFilter) (zones : List (String × SearchArea)) :
    Except (String × QueryError) (Codeplug × List ReportEntry) :=
  match get_repeaters query flt zones with
  | .error e => .error e
  | .ok rbz => .ok (organize rbz)

/-! ## Lemmas about the id-level dedup fold -/

theorem insertId_mem {acc : List Nat} {i j : Nat} :
    j ∈ insertId acc i ↔ j ∈ acc ∨ j = i := by
  unfold insertId
  by_cases h : i ∈ acc <;> simp [h]
  intro hj
  subst hj
  exact h

theorem foldl_insertId_mem (ids : List Nat) (acc : List Nat) (j : Nat) :
    j ∈ ids.foldl insertId acc ↔ j ∈ acc ∨ j ∈ ids := by
  induction ids generalizing acc with
  | nil => simp
  | cons i rest ih =>
    simp only [List.foldl_cons, ih, insertId_mem, List.mem_cons]
    tauto

theorem insertId_nodup {acc : List Nat} {i : Nat} (h : acc.Nodup) :
    (insertId acc i).Nodup := by
  unfold insertId
  by_cases hi : i ∈ acc <;> simp [hi, h, List.nodup_append]

theorem foldl_insertId_nodup (ids : List Nat) (acc : List Nat) (h : acc.Nodup) :
    (ids.foldl insertId acc).Nodup := by
  induction ids generalizing acc with
  | nil => exact h
  | cons i rest ih => exact ih _ (insertId_nodup h)

theorem dedupIds_mem (ids : List Nat) (j : Nat) :
    j ∈ dedupIds ids ↔ j ∈ ids := by
  unfold dedupIds
  simp [foldl_insertId_mem]

theorem dedupIds_nodup (ids : List Nat) : (dedupIds ids).Nodup :=
  foldl_insertId_nodup ids [] List.nodup_nil

theorem foldl_insertId_of_nodup (ids : List Nat) (acc : List Nat)
    (hn : ids.Nodup) (hd : ∀ j ∈ ids, j ∉ acc) :
    ids.foldl insertId acc = acc ++ ids := by
  induction ids generalizing acc with
  | nil => simp
  | cons i rest ih =>
    have hi : i ∉ acc := hd i (by simp)
    have step : insertId acc i = acc ++ [i] := by simp [insertId, hi]
    rw [List.foldl_cons, step, ih (acc ++ [i])]
    · simp
    · exact hn.of_cons
    · intro j hj
      simp only [List.mem_append, List.mem_singleton]
      rintro (hja | hji)
      · exact hd j (by simp [hj]) hja
      · subst hji
        exact (List.nodup_cons.mp hn).1 hj

theorem dedupIds_of_nodup (ids : List Nat) (hn : ids.Nodup) :
    dedupIds ids = ids := by
  unfold dedupIds
  simpa using foldl_insertId_of_nodup ids [] hn (by simp)

/-! ## Lemmas about the record-level dedup fold -/

theorem insertRecord_map_id (acc : List RepeaterRecord) (r : RepeaterRecord) :
    (insertRecord acc r).map (fun a => a.id) =
      insertId (acc.map (fun a => a.id)) r.id := by
  unfold insertRecord insertId
  by_cases h : r.id ∈ acc.map (fun a => a.id) <;> simp [h]

theorem foldl_insertRecord_map_id (l : List RepeaterRecord) (acc : List RepeaterRecord) :
    (l.foldl insertRecord acc).map (fun a => a.id) =
      (l.map (fun r => r.id)).foldl insertId (acc.map (fun a => a.id)) := by
  induction l generalizing acc with
  | nil => rfl
  | cons r rest ih =>
    simp only [List.foldl_cons, List.map_cons]
    rw [ih, insertRecord_map_id]

theorem foldl_insertRecord_subset (l : List RepeaterRecord) (acc : List RepeaterRecord)
    (r : RepeaterRecord) (h : r ∈ l.foldl insertRecord acc) :
    r ∈ acc ∨ r ∈ l := by
  induction l generalizing acc with
  | nil => exact Or.inl h
  | cons x rest ih =>
    rcases ih _ h with hi | hi
    · unfold insertRecord at hi
      by_cases hx : x.id ∈ acc.map (fun a => a.id)
      · simp only [hx, if_pos] at hi
        exact Or.inl hi
      · simp only [hx, if_neg, not_false_iff, List.mem_append, List.mem_singleton] at hi
        rcases hi with hi | hi
        · exact Or.inl hi
        · exact Or.inr (by simp [hi])
    · exact Or.inr (by simp [hi])

theorem globalRecords_map_id (input : RepeatersByZone) :
    (globalRecords input).map (fun r => r.id) = firstAppearanceIds input := by
  unfold globalRecords firstAppearanceIds flatRecords dedupIds
  rw [foldl_insertRecord_map_id]
  simp only [List.map_nil, List.map_flatten, List.map_map]
  rfl

theorem globalRecords_ids_nodup (input : RepeatersByZone) :
    ((globalRecords input).map (fun r => r.id)).Nodup := by
  rw [globalRecords_map_id]
  exact dedupIds_nodup _

theorem globalRecords_sub_flat (input : RepeatersByZone) (r : RepeaterRecord)
    (h : r ∈ globalRecords input) : r ∈ flatRecords input := by
  rcases foldl_insertRecord_subset _ _ _ h with hi | hi
  · simp at hi
  · exact hi

theorem mem_flatRecords (input : RepeatersByZone) (r : RepeaterRecord) :
    r ∈ flatRecords input ↔ ∃ z ∈ input, r ∈ z.2 := by
  unfold flatRecords
  simp only [List.mem_flatten, List.mem_map]
  constructor
  · rintro ⟨l, ⟨z, hz, rfl⟩, hr⟩
    exact ⟨z, hz, hr⟩
  · rintro ⟨z, hz, hr⟩
    exact ⟨z.2, ⟨z, hz, rfl⟩, hr⟩

theorem globalRecords_id_mem (input : RepeatersByZone) (i : Nat) :
    i ∈ (globalRecords input).map (fun r => r.id) ↔
      ∃ z ∈ input, ∃ r ∈ z.2, r.id = i := by
  rw [globalRecords_map_id]
  unfold firstAppearanceIds
  rw [dedupIds_mem]
  simp only [List.mem_flatten, List.mem_map]
  constructor
  · rintro ⟨l, ⟨z, hz, rfl⟩, hi⟩
    rcases List.mem_map.mp hi with ⟨r, hr, hri⟩
    exact ⟨z, hz, r, hr, hri⟩
  · rintro ⟨z, hz, r, hr, hri⟩
    exact ⟨z.2.map (fun a => a.id), ⟨z, hz, rfl⟩, List.mem_map.mpr ⟨r, hr, hri⟩⟩

/-! ## Lemmas about the channel builder -/

theorem buildChannel_of_supported {r : RepeaterRecord} (h : r.mode.supported = true) :
    buildChannel r = .ok (mkChannelEntry r) := by
  simp [buildChannel, h]

theorem buildChannel_of_unsupported {r : RepeaterRecord} (h : r.mode.supported = false) :
    buildChannel r = .error .unsupportedMode := by
  simp [buildChannel, h]

theorem buildChannels_fst (records : List RepeaterRecord) :
    (buildChannels records).1 =
      (records.filter (fun r => r.mode.supported)).map mkChannelEntry := by
  induction records with
  | nil => rfl
  | cons r rest ih =>
    by_cases h : r.mode.supported = true
    · simp [buildChannels, List.filterMap_cons, buildChannel_of_supported h, h,
        Except.toOption] at ih ⊢
      exact ih
    · have h' : r.mode.supported = false := by simpa using h
      simp [buildChannels, List.filterMap_cons, buildChannel_of_unsupported h', h',
        Except.toOption] at ih ⊢
      exact ih

theorem buildChannels_snd (records : List RepeaterRecord) :
    (buildChannels records).2 =
      (records.filter (fun r => !r.mode.supported)).map
        (fun r => ReportEntry.unsupportedMode r.id) := by
  induction records with
  | nil => rfl
  | cons r rest ih =>
    by_cases h : r.mode.supported = true
    · simp [buildChannels, List.filterMap_cons, buildChannel_of_supported h, h] at ih ⊢
      exact ih
    · have h' : r.mode.supported = false := by simpa using h
      simp [buildChannels, List.filterMap_cons, buildChannel_of_unsupported h', h'] at ih ⊢
      exact ih

theorem mkChannelEntry_recordId (r : RepeaterRecord) :
    (mkChannelEntry r).recordId = r.id := rfl

theorem buildChannels_fst_map_recordId (records : List RepeaterRecord) :
    (buildChannels records).1.map (fun c => c.recordId) =
      (records.filter (fun r => r.mode.supported)).map (fun r => r.id) := by
  rw [buildChannels_fst, List.map_map]
  rfl

theorem buildChannels_ids_sublist (records : List RepeaterRecord) :
    ((buildChannels records).1.map (fun c => c.recordId)).Sublist
      (records.map (fun r => r.id)) := by
  rw [buildChannels_fst_map_recordId]
  exact (List.filter_sublist records).map (fun r => r.id)

/-! ## Unfolding the organizer -/

/-- The global channel table before unused-entry elimination. -/
def orgChannels (input : RepeatersByZone) : List ChannelEntry :=
  (buildChannels (globalRecords input)).1

/-- The zone built for one request entry within `organize`. -/
def orgZone (input : RepeatersByZone) (z : String × List RepeaterRecord) :
    Zone × List ReportEntry :=
  buildZone (orgChannels input) z.1 (dedupIds (z.2.map (fun r => r.id)))

theorem organize_zones_eq (input : RepeatersByZone) :
    (organize input).1.zones = input.map (fun z => (orgZone input z).1) := by
  unfold organize assemble orgZone orgChannels
  simp [List.map_map]

theorem organize_channels_eq (input : RepeatersByZone) :
    (organize input).1.channels =
      (orgChannels input).filter
        (fun c => ((organize input).1.zones).any (fun z => c.recordId ∈ z.channelIds)) := rfl

theorem organize_reports_eq (input : RepeatersByZone) :
    (organize input).2 =
      (buildChannels (globalRecords input)).2 ++
        (input.map (fun z => (orgZone input z).2)).flatten := by
  unfold organize orgZone orgChannels
  simp [List.map_map]
  rfl

theorem buildZone_fst (channels : List ChannelEntry) (name : String) (ids : List Nat) :
    (buildZone channels name ids).1 =
      { name := sanitizeName name
        channelIds := (ids.filter (fun i => i ∈ channels.map (fun c => c.recordId))).take
          maxZoneChannels } := rfl

theorem buildZone_snd (channels : List ChannelEntry) (name : String) (ids : List Nat) :
    (buildZone channels name ids).2 =
      ((ids.filter (fun i => i ∈ channels.map (fun c => c.recordId))).drop
        maxZoneChannels).map (fun i => ReportEntry.capacityExceeded name i) := rfl

theorem mem_buildZone_channelIds {channels : List ChannelEntry} {name : String}
    {ids : List Nat} {i : Nat} (h : i ∈ (buildZone channels name ids).1.channelIds) :
    i ∈ ids ∧ i ∈ channels.map (fun c => c.recordId) := by
  rw [buildZone_fst] at h
  have h' := List.mem_of_mem_take h
  have h'' := List.mem_filter.mp h'
  exact ⟨h''.1, by simpa using h''.2⟩

theorem buildZone_channelIds_of_short {channels : List ChannelEntry} {name : String}
    {ids : List Nat}
    (h : (ids.filter (fun i => i ∈ channels.map (fun c => c.recordId))).length ≤
      maxZoneChannels) :
    (buildZone channels name ids).1.channelIds =
      ids.filter (fun i => i ∈ channels.map (fun c => c.recordId)) := by
  rw [buildZone_fst]
  exact List.take_of_length_le h

theorem orgChannels_ids_nodup (input : RepeatersByZone) :
    ((orgChannels input).map (fun c => c.recordId)).Nodup := by
  unfold orgChannels
  exact (buildChannels_ids_sublist _).nodup (globalRecords_ids_nodup input)

theorem organize_channels_ids_nodup (input : RepeatersByZone) :
    (((organize input).1.channels).map (fun c => c.recordId)).Nodup := by
  rw [organize_channels_eq]
  exact ((List.filter_sublist _).map _).nodup (orgChannels_ids_nodup input)

/-! ## Bridging lemmas shared by the claims -/

theorem orgChannels_ids_eq (input : RepeatersByZone) :
    (orgChannels input).map (fun c => c.recordId) =
      ((globalRecords input).filter (fun r => r.mode.supported)).map (fun r => r.id) :=
  buildChannels_fst_map_recordId _

theorem channel_exists_of_supported (input : RepeatersByZone) (rid : Nat)
    (hzones : ∃ z ∈ input, ∃ r ∈ z.2, r.id = rid)
    (hmode : ∀ z ∈ input, ∀ r ∈ z.2, r.id = rid → r.mode.supported = true) :
    rid ∈ (orgChannels input).map (fun c => c.recordId) := by
  have hg : rid ∈ (globalRecords input).map (fun r => r.id) :=
    (globalRecords_id_mem input rid).mpr hzones
  rcases List.mem_map.mp hg with ⟨rG, hrG, hid⟩
  rcases (mem_flatRecords input rG).mp (globalRecords_sub_flat input rG hrG) with
    ⟨z, hz, hrz⟩
  have hs : rG.mode.supported = true := hmode z hz rG hrz hid
  rw [orgChannels_ids_eq]
  exact List.mem_map.mpr ⟨rG, List.mem_filter.mpr ⟨hrG, by simp [hs]⟩, hid⟩

theorem channel_absent_of_unsupported (input : RepeatersByZone) (rid : Nat)
    (hmode : ∀ z ∈ input, ∀ r ∈ z.2, r.id = rid → r.mode.supported = false) :
    rid ∉ (orgChannels input).map (fun c => c.recordId) := by
  rw [orgChannels_ids_eq]
  intro h
  rcases List.mem_map.mp h with ⟨rG, hrG, hid⟩
  have hf := List.mem_filter.mp hrG
  rcases (mem_flatRecords input rG).mp (globalRecords_sub_flat input rG hf.1) with
    ⟨z, hz, hrz⟩
  have := hmode z hz rG hrz hid
  simp [this] at hf

theorem count_one_of_referenced (input : RepeatersByZone) (rid : Nat)
    (h : ∃ z ∈ (organize input).1.zones, rid ∈ z.channelIds) :
    (((organize input).1.channels).map (fun c => c.recordId)).count rid = 1 := by
  rcases h with ⟨z, hz, hrid⟩
  have hz' := hz
  rw [organize_zones_eq] at hz'
  rcases List.mem_map.mp hz' with ⟨zin, hzin, hzeq⟩
  have hmem : rid ∈ (orgChannels input).map (fun c => c.recordId) := by
    have : rid ∈ (orgZone input zin).1.channelIds := hzeq ▸ hrid
    unfold orgZone at this
    exact (mem_buildZone_channelIds this).2
  rcases List.mem_map.mp hmem with ⟨c, hc, hcid⟩
  have hca : c ∈ (organize input).1.channels := by
    rw [organize_channels_eq]
    refine List.mem_filter.mpr ⟨hc, ?_⟩
    simp only [List.any_eq_true, decide_eq_true_eq]
    exact ⟨z, hz, hcid ▸ hrid⟩
  exact List.count_eq_one_of_mem (organize_channels_ids_nodup input)
    (List.mem_map.mpr ⟨c, hca, hcid⟩)

theorem orgZone_channelIds_no_trunc (input : RepeatersByZone)
    (z : String × List RepeaterRecord)
    (hcap : (dedupIds (z.2.map (fun r => r.id))).length ≤ maxZoneChannels) :
    (orgZone input z).1.channelIds =
      (dedupIds (z.2.map (fun r => r.id))).filter
        (fun i => i ∈ (orgChannels input).map (fun c => c.recordId)) := by
  unfold orgZone
  exact buildZone_channelIds_of_short (le_trans (List.length_filter_le _ _) hcap)

/-! ## The claims -/

/-- C2: in every assembled codeplug, each channel referenced by any output
zone occurs exactly once in the global channel table, and the table holds
no channel that no zone references. -/
theorem organize_global_table_invariant (input : RepeatersByZone) :
    (∀ z ∈ (organize input).1.zones, ∀ rid ∈ z.channelIds,
      (((organize input).1.channels).map (fun c => c.recordId)).count rid = 1) ∧
    ∀ c ∈ (organize input).1.channels, ∃ z ∈ (organize input).1.zones,
      c.recordId ∈ z.channelIds := by
  constructor
  · intro z hz rid hrid
    exact count_one_of_referenced input rid ⟨z, hz, hrid⟩
  · intro c hc
    rw [organize_channels_eq] at hc
    have h2 := (List.mem_filter.mp hc).2
    simpa using h2

/-- C1: a record identity retrieved in at least one zone — all records
carrying it being representable in the target format and every zone
staying within the per-zone capacity — yields exactly one entry in the
global channel table, and every zone that retrieved it references that
single entry. -/
theorem organize_one_entry_referenced_by_all (input : RepeatersByZone) (rid : Nat)
    (hzones : ∃ z ∈ input, ∃ r ∈ z.2, r.id = rid)
    (hmode : ∀ z ∈ input, ∀ r ∈ z.2, r.id = rid → r.mode.supported = true)
    (hcap : ∀ z ∈ input,
      (dedupIds (z.2.map (fun r => r.id))).length ≤ maxZoneChannels) :
    (((organize input).1.channels).map (fun c => c.recordId)).count rid = 1 ∧
    ∀ (i : Nat) (zn : String) (recs : List RepeaterRecord),
      input[i]? = some (zn, recs) → rid ∈ recs.map (fun r => r.id) →
      ∃ z : Zone, ((organize input).1.zones)[i]? = some z ∧ rid ∈ z.channelIds := by
  have hch : rid ∈ (orgChannels input).map (fun c => c.recordId) :=
    channel_exists_of_supported input rid hzones hmode
  have partB : ∀ (i : Nat) (zn : String) (recs : List RepeaterRecord),
      input[i]? = some (zn, recs) → rid ∈ recs.map (fun r => r.id) →
      ∃ z : Zone, ((organize input).1.zones)[i]? = some z ∧ rid ∈ z.channelIds := by
    intro i zn recs hi hr
    have hzin : (zn, recs) ∈ input := List.getElem?_mem hi
    refine ⟨(orgZone input (zn, recs)).1, ?_, ?_⟩
    · rw [organize_zones_eq, List.getElem?_map, hi, Option.map_some']
    · rw [orgZone_channelIds_no_trunc input (zn, recs) (hcap _ hzin)]
      exact List.mem_filter.mpr ⟨(dedupIds_mem _ rid).mpr hr, by simpa using hch⟩
  refine ⟨?_, partB⟩
  rcases hzones with ⟨z0, hz0, r0, hr0, hid0⟩
  rcases List.getElem_of_mem hz0 with ⟨i, hilt, hieq⟩
  have hi0 : input[i]? = some (z0.1, z0.2) := by
    rw [List.getElem?_eq_getElem hilt, hieq]
  rcases partB i z0.1 z0.2 hi0 (List.mem_map.mpr ⟨r0, hr0, hid0⟩) with ⟨z, hzi, hzr⟩
  exact count_one_of_referenced input rid ⟨z, List.getElem?_mem hzi, hzr⟩

/-- A concrete request: two overlapping zones sharing the record with
identity 1, plus one zone-specific record each. -/
def wRec (i : Nat) : RepeaterRecord :=
  { id := i
    callsign := "PY2ABC"
    location := ⟨-232236, -459195⟩
    rx := 145000000
    txExplicit := none
    offsetDir := .minus
    offsetMag := 600000
    tone := some 885
    mode := .fm }

/-- Concrete overlapping-zone request used as a witness input. -/
def wInput : RepeatersByZone :=
  [("zone_a", [wRec 1, wRec 2]), ("zone_b", [wRec 1, wRec 3])]

/-- Witness for C1 at the overlapping-zone request: identity 1 is shared
by both zones, yields one table entry, and both zones reference it. -/
theorem organize_one_entry_referenced_by_all_witness :
    (((organize wInput).1.channels).map (fun c => c.recordId)).count 1 = 1 ∧
    ∀ (i : Nat) (zn : String) (recs : List RepeaterRecord),
      wInput[i]? = some (zn, recs) → 1 ∈ recs.map (fun r => r.id) →
      ∃ z : Zone, ((organize wInput).1.zones)[i]? = some z ∧ 1 ∈ z.channelIds :=
  organize_one_entry_referenced_by_all wInput 1 (by decide) (by decide) (by decide)

/-- C3: deduplication is identity equality only — the global set holds at
most one record per directory identity, an identity is present exactly
when some zone retrieved a record carrying it (its coordinates play no
role), two records with distinct identities are both kept however close
their coordinates are, and the assembled channel table never carries two
entries with one identity. -/
theorem dedup_identity_equality (input : RepeatersByZone) :
    ((globalRecords input).map (fun r => r.id)).Nodup ∧
    (∀ i : Nat, i ∈ (globalRecords input).map (fun r => r.id) ↔
      ∃ z ∈ input, ∃ r ∈ z.2, r.id = i) ∧
    (∀ r1 ∈ flatRecords input, ∀ r2 ∈ flatRecords input, r1.id ≠ r2.id →
      r1.id ∈ (globalRecords input).map (fun r => r.id) ∧
      r2.id ∈ (globalRecords input).map (fun r => r.id)) ∧
    (((organize input).1.channels).map (fun c => c.recordId)).Nodup := by
  refine ⟨globalRecords_ids_nodup input, fun i => globalRecords_id_mem input i,
    ?_, organize_channels_ids_nodup input⟩
  intro r1 h1 r2 h2 _
  rcases (mem_flatRecords input r1).mp h1 with ⟨z1, hz1, hr1⟩
  rcases (mem_flatRecords input r2).mp h2 with ⟨z2, hz2, hr2⟩
  exact ⟨(globalRecords_id_mem input r1.id).mpr ⟨z1, hz1, r1, hr1, rfl⟩,
    (globalRecords_id_mem input r2.id).mpr ⟨z2, hz2, r2, hr2, rfl⟩⟩

/-- C6: when the retrieved records carry pairwise distinct identities, all
are representable and every zone is within capacity, the assembled
global channel table has exactly one entry per retrieved record: its size
is the sum of the per-zone retrieved record counts. -/
theorem organize_table_size_no_overlap (input : RepeatersByZone)
    (hnd : ((input.map (fun z => z.2.map (fun r => r.id))).flatten).Nodup)
    (hmode : ∀ z ∈ input, ∀ r ∈ z.2, r.mode.supported = true)
    (hcap : ∀ z ∈ input, z.2.length ≤ maxZoneChannels) :
    ((organize input).1.channels).length = (input.map (fun z => z.2.length)).sum := by
  have hglobal : (globalRecords input).map (fun r => r.id) =
      (input.map (fun z => z.2.map (fun r => r.id))).flatten := by
    rw [globalRecords_map_id]
    unfold firstAppearanceIds
    exact dedupIds_of_nodup _ hnd
  have hsupp : ∀ r ∈ globalRecords input, r.mode.supported = true := by
    intro r hr
    rcases (mem_flatRecords input r).mp (globalRecords_sub_flat input r hr) with
      ⟨z, hz, hrz⟩
    exact hmode z hz r hrz
  have horg : orgChannels input = (globalRecords input).map mkChannelEntry := by
    unfold orgChannels
    rw [buildChannels_fst, List.filter_eq_self.mpr (by simpa using hsupp)]
  have hpred : ∀ c ∈ orgChannels input,
      ((organize input).1.zones).any (fun z => c.recordId ∈ z.channelIds) = true := by
    intro c hc
    rw [horg] at hc
    rcases List.mem_map.mp hc with ⟨rG, hrG, rfl⟩
    rcases (mem_flatRecords input rG).mp (globalRecords_sub_flat input rG hrG) with
      ⟨z, hz, hrz⟩
    have hidsnd : (z.2.map (fun r => r.id)).Nodup :=
      (List.sublist_flatten_of_mem (List.mem_map.mpr ⟨z, hz, rfl⟩)).nodup hnd
    have hdz : dedupIds (z.2.map (fun r => r.id)) = z.2.map (fun r => r.id) :=
      dedupIds_of_nodup _ hidsnd
    have hcapz : (dedupIds (z.2.map (fun r => r.id))).length ≤ maxZoneChannels := by
      rw [hdz, List.length_map]
      exact hcap z hz
    simp only [List.any_eq_true, decide_eq_true_eq]
    refine ⟨(orgZone input z).1, ?_, ?_⟩
    · rw [organize_zones_eq]
      exact List.mem_map.mpr ⟨z, hz, rfl⟩
    rw [orgZone_channelIds_no_trunc input z hcapz, hdz]
    refine List.mem_filter.mpr ⟨List.mem_map.mpr ⟨rG, hrz, rfl⟩, ?_⟩
    simp only [decide_eq_true_eq]
    rw [horg, List.map_map]
    exact List.mem_map.mpr ⟨rG, hrG, rfl⟩
  have hassembled : (organize input).1.channels = orgChannels input := by
    rw [organize_channels_eq]
    exact List.filter_eq_self.mpr hpred
  rw [hassembled, horg, List.length_map]
  have := congrArg List.length hglobal
  rw [List.length_map, List.length_flatten] at this
  rw [this, List.map_map]
  simp [Function.comp_def]

/-- Concrete request with pairwise distinct identities across zones. -/
def wDisjoint : RepeatersByZone :=
  [("zone_a", [wRec 1, wRec 2]), ("zone_b", [wRec 3])]

/-- Witness for C6 at a request with three distinct identities split over
two zones: the assembled table has three entries. -/
theorem organize_table_size_no_overlap_witness :
    ((organize wDisjoint).1.channels).length =
      (wDisjoint.map (fun z => z.2.length)).sum :=
  organize_table_size_no_overlap wDisjoint (by decide) (by decide) (by decide)

/-- When every identity of a zone has a channel in the global table, the
zone keeps its whole deduplicated id list up to the capacity cut. -/
theorem orgZone_avail_eq_of_all_supported (input : RepeatersByZone)
    (hmode : ∀ z ∈ input, ∀ r ∈ z.2, r.mode.supported = true)
    (zn : String) (recs : List RepeaterRecord) (hz : (zn, recs) ∈ input) :
    (dedupIds (recs.map (fun r => r.id))).filter
        (fun i => i ∈ (orgChannels input).map (fun c => c.recordId)) =
      dedupIds (recs.map (fun r => r.id)) := by
  refine List.filter_eq_self.mpr ?_
  intro j hj
  simp only [decide_eq_true_eq]
  have hj' : j ∈ recs.map (fun r => r.id) := (dedupIds_mem _ j).mp hj
  rcases List.mem_map.mp hj' with ⟨r, hr, hjid⟩
  refine channel_exists_of_supported input j ⟨(zn, recs), hz, r, hr, hjid⟩ ?_
  intro z hzz r' hr' _
  exact hmode z hzz r' hr'

/-- C4: in a request whose records are all representable, a zone that
retrieves K+1 distinct identities (K the per-zone capacity) yields an
output zone holding exactly the first K ids in establishment order, and
the codeplug is accompanied by a capacity report entry naming the zone
and each dropped record. -/
theorem organize_zone_truncation (input : RepeatersByZone)
    (hmode : ∀ z ∈ input, ∀ r ∈ z.2, r.mode.supported = true)
    (i : Nat) (zn : String) (recs : List RepeaterRecord)
    (hi : input[i]? = some (zn, recs))
    (hlen : (dedupIds (recs.map (fun r => r.id))).length = maxZoneChannels + 1) :
    ∃ z : Zone, ((organize input).1.zones)[i]? = some z ∧
      z.channelIds = (dedupIds (recs.map (fun r => r.id))).take maxZoneChannels ∧
      z.channelIds.length = maxZoneChannels ∧
      ∀ d ∈ (dedupIds (recs.map (fun r => r.id))).drop maxZoneChannels,
        ReportEntry.capacityExceeded zn d ∈ (organize input).2 := by
  have hz : (zn, recs) ∈ input := List.getElem?_mem hi
  have havail := orgZone_avail_eq_of_all_supported input hmode zn recs hz
  refine ⟨(orgZone input (zn, recs)).1, ?_, ?_, ?_, ?_⟩
  · rw [organize_zones_eq, List.getElem?_map, hi, Option.map_some']
  · show (orgZone input (zn, recs)).1.channelIds = _
    unfold orgZone
    rw [buildZone_fst]
    simp only
    rw [havail]
  · show (orgZone input (zn, recs)).1.channelIds.length = _
    unfold orgZone
    rw [buildZone_fst]
    simp only
    rw [havail, List.length_take, hlen]
    omega
  · intro d hd
    have hentry : ReportEntry.capacityExceeded zn d ∈ (orgZone input (zn, recs)).2 := by
      unfold orgZone
      rw [buildZone_snd, havail]
      exact List.mem_map.mpr ⟨d, hd, rfl⟩
    rw [organize_reports_eq]
    refine List.mem_append_right _ (List.mem_flatten.mpr ⟨(orgZone input (zn, recs)).2,
      List.mem_map.mpr ⟨(zn, recs), hz, rfl⟩, hentry⟩)

/-- A request whose single zone retrieves one more distinct identity than
the per-zone capacity. -/
def wBigRecs : List RepeaterRecord := (List.range (maxZoneChannels + 1)).map wRec

/-- The over-capacity single-zone request. -/
def wBigInput : RepeatersByZone := [("big", wBigRecs)]

set_option maxRecDepth 100000 in
/-- Witness for C4 at the over-capacity request: the output zone keeps
the first 80 identities and the dropped one is reported for zone
`big`. -/
theorem organize_zone_truncation_witness :
    ∃ z : Zone, ((organize wBigInput).1.zones)[0]? = some z ∧
      z.channelIds = (dedupIds (wBigRecs.map (fun r => r.id))).take maxZoneChannels ∧
      z.channelIds.length = maxZoneChannels ∧
      ∀ d ∈ (dedupIds (wBigRecs.map (fun r => r.id))).drop maxZoneChannels,
        ReportEntry.capacityExceeded "big" d ∈ (organize wBigInput).2 :=
  organize_zone_truncation wBigInput (by decide) 0 "big" wBigRecs (by rfl) (by decide)

/-- C5: a retrieved identity whose records carry a mode with no
target-format representation is absent from the global channel table and
from every output zone, and the failure report — returned alongside the
codeplug — names it as an unsupported-mode skip exactly once, never as a
capacity drop. -/
theorem organize_unsupported_skipped (input : RepeatersByZone) (rid : Nat)
    (hzones : ∃ z ∈ input, ∃ r ∈ z.2, r.id = rid)
    (hmode : ∀ z ∈ input, ∀ r ∈ z.2, r.id = rid → r.mode.supported = false) :
    (∀ c ∈ (organize input).1.channels, c.recordId ≠ rid) ∧
    (∀ z ∈ (organize input).1.zones, rid ∉ z.channelIds) ∧
    (organize input).2.count (ReportEntry.unsupportedMode rid) = 1 ∧
    ∀ zn : String, ReportEntry.capacityExceeded zn rid ∉ (organize input).2 := by
  have habsent : rid ∉ (orgChannels input).map (fun c => c.recordId) :=
    channel_absent_of_unsupported input rid hmode
  have hzoneabs : ∀ z ∈ (organize input).1.zones, rid ∉ z.channelIds := by
    intro z hz hrid
    rw [organize_zones_eq] at hz
    rcases List.mem_map.mp hz with ⟨zin, _, hzeq⟩
    have : rid ∈ (orgZone input zin).1.channelIds := hzeq ▸ hrid
    unfold orgZone at this
    exact habsent (mem_buildZone_channelIds this).2
  refine ⟨?_, hzoneabs, ?_, ?_⟩
  · intro c hc hcid
    rw [organize_channels_eq] at hc
    exact habsent (List.mem_map.mpr ⟨c, (List.mem_filter.mp hc).1, hcid⟩)
  · rw [organize_reports_eq, List.count_append]
    have hcount1 : ((buildChannels (globalRecords input)).2).count
        (ReportEntry.unsupportedMode rid) = 1 := by
      rw [buildChannels_snd]
      have hinj : Function.Injective ReportEntry.unsupportedMode := by
        intro a b h
        injection h
      have hmapsplit : ((globalRecords input).filter (fun r => !r.mode.supported)).map
          (fun r => ReportEntry.unsupportedMode r.id) =
          (((globalRecords input).filter (fun r => !r.mode.supported)).map
            (fun r => r.id)).map ReportEntry.unsupportedMode := by
        rw [List.map_map]
        rfl
      rw [hmapsplit, List.count_map_of_injective _ _ hinj]
      have hnd : (((globalRecords input).filter (fun r => !r.mode.supported)).map
          (fun r => r.id)).Nodup :=
        ((List.filter_sublist _).map _).nodup (globalRecords_ids_nodup input)
      refine List.count_eq_one_of_mem hnd ?_
      rcases List.mem_map.mp ((globalRecords_id_mem input rid).mpr hzones) with
        ⟨rG, hrG, hid⟩
      rcases (mem_flatRecords input rG).mp (globalRecords_sub_flat input rG hrG) with
        ⟨z, hzz, hrz⟩
      have hbad : rG.mode.supported = false := hmode z hzz rG hrz hid
      exact List.mem_map.mpr ⟨rG, List.mem_filter.mpr ⟨hrG, by simp [hbad]⟩, hid⟩
    have hcount2 : ((input.map (fun z => (orgZone input z).2)).flatten).count
        (ReportEntry.unsupportedMode rid) = 0 := by
      refine List.count_eq_zero.mpr ?_
      intro hmem
      rcases List.mem_flatten.mp hmem with ⟨l, hl, hel⟩
      rcases List.mem_map.mp hl with ⟨zin, _, rfl⟩
      unfold orgZone at hel
      rw [buildZone_snd] at hel
      rcases List.mem_map.mp hel with ⟨d, _, hdd⟩
      exact ReportEntry.noConfusion hdd
    rw [hcount1, hcount2]
  · intro zn hmem
    rw [organize_reports_eq] at hmem
    rcases List.mem_append.mp hmem with hmem | hmem
    · rw [buildChannels_snd] at hmem
      rcases List.mem_map.mp hmem with ⟨r, _, hr⟩
      exact ReportEntry.noConfusion hr
    · rcases List.mem_flatten.mp hmem with ⟨l, hl, hel⟩
      rcases List.mem_map.mp hl with ⟨zin, hzin, rfl⟩
      unfold orgZone at hel
      rw [buildZone_snd] at hel
      rcases List.mem_map.mp hel with ⟨d, hd, hdd⟩
      have hdr : d = rid := by injection hdd with _ h2
      subst hdr
      have hdmem := List.mem_filter.mp (List.mem_of_mem_drop hd)
      have : d ∈ (orgChannels input).map (fun c => c.recordId) := by
        simpa using hdmem.2
      exact habsent this

/-- A request in which identity 9 is retrieved only with an
unrepresentable mode, next to a representable record. -/
def wUnsupported : RepeatersByZone :=
  [("zone_a", [wRec 1, { wRec 9 with mode := .am }]),
   ("zone_b", [{ wRec 9 with mode := .am }])]

/-- Witness for C5 at a request carrying identity 9 only with mode AM:
no channel, no zone reference, one unsupported-mode report entry. -/
theorem organize_unsupported_skipped_witness :
    (∀ c ∈ (organize wUnsupported).1.channels, c.recordId ≠ 9) ∧
    (∀ z ∈ (organize wUnsupported).1.zones, 9 ∉ z.channelIds) ∧
    (organize wUnsupported).2.count (ReportEntry.unsupportedMode 9) = 1 ∧
    ∀ zn : String, ReportEntry.capacityExceeded zn 9 ∉ (organize wUnsupported).2 :=
  organize_unsupported_skipped wUnsupported 9 (by decide) (by decide)

/-- C7: the global channel table is ordered by first appearance — the
dedup fold's id sequence equals the flattened zone-iteration-order,
first-appearance id sequence and the assembled table's identities follow
it as a subsequence — while the output zones follow the caller's
original zone-request order, one zone per request entry. -/
theorem organize_ordering (input : RepeatersByZone) :
    (globalRecords input).map (fun r => r.id) = firstAppearanceIds input ∧
    (((organize input).1.channels).map (fun c => c.recordId)).Sublist
      (firstAppearanceIds input) ∧
    ((organize input).1.zones).map (fun z => z.name) =
      input.map (fun z => sanitizeName z.1) := by
  refine ⟨globalRecords_map_id input, ?_, ?_⟩
  · have h1 : (((organize input).1.channels).map (fun c => c.recordId)).Sublist
        ((orgChannels input).map (fun c => c.recordId)) := by
      rw [organize_channels_eq]
      exact (List.filter_sublist _).map _
    have h2 : ((orgChannels input).map (fun c => c.recordId)).Sublist
        ((globalRecords input).map (fun r => r.id)) :=
      buildChannels_ids_sublist _
    rw [← globalRecords_map_id input]
    exact h1.trans h2
  · rw [organize_zones_eq, List.map_map]
    rfl

/-! ## Aggregator claims -/

/-- Whether a per-zone directory query succeeded. -/
def isOkQ (e : Except QueryError (List RepeaterRecord)) : Bool :=
  match e with
  | .ok _ => true
  | .error _ => false

/-- C8: the aggregator never silently drops a zone — when every per-zone
query succeeds the result maps exactly the requested zone names, in
request order, to the records the directory returned for their areas;
when some zone's query fails, the whole request fails naming a zone
whose query really failed (the single documented policy). -/
theorem get_repeaters_policy
    (query : ExportFilter → SearchArea → Except QueryError (List RepeaterRecord))
    (flt : ExportFilter) (zones : List (String × SearchArea)) :
    ((∀ z ∈ zones, isOkQ (query flt z.2) = true) →
      ∃ rbz : RepeatersByZone, get_repeaters query flt zones = .ok rbz ∧
        rbz.map (fun p => p.1) = zones.map (fun p => p.1) ∧
        ∀ (i : Nat) (zn : String) (area : SearchArea), zones[i]? = some (zn, area) →
          ∃ recs : List RepeaterRecord, rbz[i]? = some (zn, recs) ∧
            query flt area = .ok recs) ∧
    ((∃ z ∈ zones, isOkQ (query flt z.2) = false) →
      ∃ (zn : String) (e : QueryError),
        get_repeaters query flt zones = .error (zn, e) ∧
        ∃ area : SearchArea, (zn, area) ∈ zones ∧ query flt area = .error e) := by
  induction zones with
  | nil =>
    constructor
    · intro _
      exact ⟨[], rfl, rfl, by intro i zn area h; simp at h⟩
    · rintro ⟨w, hw, _⟩
      simp at hw
  | cons z rest ih =>
    constructor
    · intro hall
      have hz := hall z (List.mem_cons_self z rest)
      cases hq : query flt z.2 with
      | error e =>
        rw [hq] at hz
        simp [isOkQ] at hz
      | ok recs =>
        rcases ih.1 (fun w hw => hall w (List.mem_cons_of_mem z hw)) with
          ⟨rbz, hr, hnames, hidx⟩
        refine ⟨(z.1, recs) :: rbz, ?_, ?_, ?_⟩
        · simp [get_repeaters, hq, hr]
        · simp [hnames]
        · intro i zn area hi
          cases i with
          | zero =>
            simp only [List.getElem?_cons_zero, Option.some_inj] at hi
            subst hi
            exact ⟨recs, by simp, hq⟩
          | succ n =>
            simp only [List.getElem?_cons_succ] at hi ⊢
            exact hidx n zn area hi
    · rintro ⟨w, hw, hfail⟩
      cases hq : query flt z.2 with
      | error e =>
        exact ⟨z.1, e, by simp [get_repeaters, hq], z.2, by simp, hq⟩
      | ok recs =>
        have hwrest : w ∈ rest := by
          rcases List.mem_cons.mp hw with rfl | h
          · rw [hq] at hfail
            simp [isOkQ] at hfail
          · exact h
        rcases ih.2 ⟨w, hwrest, hfail⟩ with ⟨zn, e, herr, area, hmem, hqa⟩
        exact ⟨zn, e, by simp [get_repeaters, hq, herr],
          area, List.mem_cons_of_mem z hmem, hqa⟩

/-- A concrete directory oracle: fails on a zero radius, otherwise
returns one fixed record; it ignores the export filter. -/
def wQuery (flt : ExportFilter) (a : SearchArea) :
    Except QueryError (List RepeaterRecord) :=
  if a.distance = 0 then .error .invalidArea else .ok [wRec 1]

/-- The notebook's export filter: Brazil. -/
def wFlt : ExportFilter := ⟨["BR"]⟩

/-- A second, different export filter. -/
def wFlt2 : ExportFilter := ⟨["US"]⟩

/-- The notebook's first search area. -/
def wAreaA : SearchArea := ⟨⟨-232236, -459195⟩, 100, .kilometers⟩

/-- The notebook's second search area. -/
def wAreaB : SearchArea := ⟨⟨-233000, -450000⟩, 100, .kilometers⟩

/-- The notebook's two-zone request. -/
def wZones : List (String × SearchArea) := [("zone_a", wAreaA), ("zone_b", wAreaB)]

/-- The same zone names over swapped areas. -/
def wZonesSwapped : List (String × SearchArea) :=
  [("zone_a", wAreaB), ("zone_b", wAreaA)]

/-- The per-zone records the oracle yields for the two-zone request. -/
def wRbz : RepeatersByZone := [("zone_a", [wRec 1]), ("zone_b", [wRec 1])]

/-- Witness for C8 at the two-zone request with the always-succeeding
oracle: the aggregate succeeds and preserves the zone-name mapping. -/
theorem get_repeaters_policy_witness :
    ∃ rbz : RepeatersByZone, get_repeaters wQuery wFlt wZones = .ok rbz ∧
      rbz.map (fun p => p.1) = wZones.map (fun p => p.1) ∧
      ∀ (i : Nat) (zn : String) (area : SearchArea), wZones[i]? = some (zn, area) →
        ∃ recs : List RepeaterRecord, rbz[i]? = some (zn, recs) ∧
          wQuery wFlt area = .ok recs :=
  (get_repeaters_policy wQuery wFlt wZones).1 (by decide)

/-- C9: the pipeline is deterministic over its inputs — two runs with the
same oracle (directory snapshot), export filter and zone request that
produce codeplugs produce structurally identical ones: same zones, same
global table, same report. -/
theorem pipeline_deterministic
    (query : ExportFilter → SearchArea → Except QueryError (List RepeaterRecord))
    (flt : ExportFilter) (zones : List (String × SearchArea))
    (out1 out2 : Codeplug × List ReportEntry)
    (h1 : pipeline query flt zones = .ok out1)
    (h2 : pipeline query flt zones = .ok out2) :
    out1.1.zones = out2.1.zones ∧ out1.1.channels = out2.1.channels ∧
      out1.2 = out2.2 := by
  rw [h1] at h2
  injection h2 with h
  rw [h]
  exact ⟨rfl, rfl, rfl⟩

/-- Witness for C9: running the two-zone request twice yields the same
codeplug structure. -/
theorem pipeline_deterministic_witness :
    (organize wRbz).1.zones = (organize wRbz).1.zones ∧
    (organize wRbz).1.channels = (organize wRbz).1.channels ∧
    (organize wRbz).2 = (organize wRbz).2 :=
  pipeline_deterministic wQuery wFlt wZones (organize wRbz) (organize wRbz)
    (by rfl) (by rfl)

/-- C10: the organizer depends only on its RepeatersByZone argument — two
retrievals run with arbitrary oracles, filters and zone geometries that
return equal per-zone record mappings organize to equal codeplugs and
reports. -/
theorem organize_depends_only_on_records
    (q1 q2 : ExportFilter → SearchArea → Except QueryError (List RepeaterRecord))
    (f1 f2 : ExportFilter) (z1 z2 : List (String × SearchArea))
    (rbz1 rbz2 : RepeatersByZone)
    (h1 : get_repeaters q1 f1 z1 = .ok rbz1)
    (h2 : get_repeaters q2 f2 z2 = .ok rbz2)
    (heq : rbz1 = rbz2) :
    organize rbz1 = organize rbz2 := by
  rw [heq]

/-- Witness for C10: different filters and swapped areas that retrieve
the same records organize identically. -/
theorem organize_depends_only_on_records_witness :
    organize wRbz = organize wRbz :=
  organize_depends_only_on_records wQuery wQuery wFlt wFlt2 wZones wZonesSwapped
    wRbz wRbz (by rfl) (by rfl) (by rfl)

end Ogdrb
